import Mathlib

/-!
# Verification of the actiony action lifecycle and query engine

A shallow embedding of the action-tracking core: the Action record shape
(mirroring the `action.action` table of the initial migration: non-null
`action_id` uuid primary key, non-null `service`, non-null integer `state`,
non-null `action_status` enum of active/completed/failed/canceled, nullable
jsonb `metadata`, nullable `closed_at`, non-null `created_at`/`updated_at`),
the domain error kinds of `ActionNotFoundError`, `ActionAlreadyClosedError`
and `ServiceNotFoundOnRegistry`, and the Action Store / Action Service
operations. The store is modelled as the list of persisted records in
insertion order; timestamps are naturals; each operation takes the clock
value `now` explicitly.
-/

namespace Actiony

/-- The `action_action_status_enum` enumerated type of the migration:
exactly the four values active, completed, failed, canceled. -/
inductive ActionStatus where
  | active
  | completed
  | failed
  | canceled
deriving DecidableEq, Repr

/-- Rendering of a status into its wire string, as it appears in error
messages such as "... has already been closed with status completed". -/
def ActionStatus.text : ActionStatus → String
  | .active => "active"
  | .completed => "completed"
  | .failed => "failed"
  | .canceled => "canceled"

/-- A JSON-serializable value: tagged union of null, bool, number, string,
array and object, per the metadata model. -/
inductive JsonValue where
  | null
  | bool (b : Bool)
  | num (n : Int)
  | str (s : String)
  | arr (elements : List JsonValue)
  | obj (fields : List (String × JsonValue))

/-- Metadata: an open-ended mapping from string keys to JSON values. -/
abbrev Metadata := List (String × JsonValue)

/-- A persisted action record. Fields mirror the columns of the
`action.action` table: all fields are non-null except `metadata` and
`closedAt`, which are the only `Option`-typed (nullable) columns. -/
structure Action where
  actionId : String
  service : String
  state : Int
  status : ActionStatus
  metadata : Option Metadata
  closedAt : Option Nat
  createdAt : Nat
  updatedAt : Nat

/-- The domain error kinds, mirroring the error classes
`ActionNotFoundError`, `ActionAlreadyClosedError` and
`ServiceNotFoundOnRegistry`, each carrying its message. -/
inductive ActionError where
  | actionNotFound (message : String)
  | actionAlreadyClosed (message : String)
  | serviceNotFoundOnRegistry (message : String)
deriving DecidableEq, Repr

/-- Sort direction of a listing: `asc` or `desc` (source type `Sort`;
renamed because `Sort` is reserved in Lean). -/
inductive SortOrder where
  | asc
  | desc
deriving DecidableEq, Repr

/-- Modelled from the spec: the `ActionFilter` accepted by Store.find
(the source's filter type is not under src/): optional exact-match
`service`, optional `status` set, `sort` defaulting to `desc`, optional
positive `limit`. -/
structure ActionFilter where
  service : Option String := none
  status : Option (List ActionStatus) := none
  sort : SortOrder := .desc
  limit : Option Nat := none

/-- Modelled from the spec: creation parameters (`ActionParams`):
a service name, an opaque integer state, and optional metadata. -/
structure ActionParams where
  service : String
  state : Int
  metadata : Option Metadata := none

/-- Modelled from the spec: the update patch (`UpdatableActionParams`):
optional replacement status and/or optional wholesale-replacement
metadata. -/
structure UpdatableActionParams where
  status : Option ActionStatus := none
  metadata : Option Metadata := none

/-- Modelled from the spec: the Registry Gate `isKnown(serviceName)`:
a pure membership lookup in the set of recognized service names
(the registry collaborator is not under src/). -/
def isKnown (registry : List String) (serviceName : String) : Bool :=
  registry.contains serviceName

/-- Modelled from the spec: the state machine contract
`canTransition(current, requested)`: true iff `current == active`,
regardless of the requested status (the state-machine module is not
under src/). -/
def canTransition (current : ActionStatus) (requested : ActionStatus) : Bool :=
  current == ActionStatus.active

/-- Modelled from the spec: `Store.findById(actionId)`: the first (and,
under id uniqueness, only) record with the given id, or not-found. -/
def findById (store : List Action) (actionId : String) : Option Action :=
  store.find? (fun a => a.actionId == actionId)

/-- Whether a record matches the filter: `service` is an exact match when
present, `status` is set membership when present; absent fields match
everything. -/
def matchesFilter (f : ActionFilter) (a : Action) : Bool :=
  (match f.service with
    | none => true
    | some s => a.service == s)
  && (match f.status with
    | none => true
    | some statuses => statuses.contains a.status)

/-- The `updatedAt` comparison used for ordering a listing: ascending or
descending by `updatedAt` per the sort direction. -/
def updatedAtLe (d : SortOrder) (a b : Action) : Bool :=
  match d with
  | .asc => decide (a.updatedAt ≤ b.updatedAt)
  | .desc => decide (b.updatedAt ≤ a.updatedAt)

/-- Modelled from the spec: `Store.find(filter)` (the repository's
`findActions` is not under src/): keep the records matching the filter,
order them by `updatedAt` per the sort direction with ties broken by
insertion order (stable sort), and cap the count at `limit` when given. -/
def findActions (store : List Action) (f : ActionFilter) : List Action :=
  let sorted := (store.filter (matchesFilter f)).mergeSort (updatedAtLe f.sort)
  match f.limit with
  | none => sorted
  | some n => sorted.take n

/-- Modelled from the spec: the record built at creation time:
`status = active`, `closedAt = null`, `createdAt = updatedAt = now()`. -/
def newAction (actionId : String) (params : ActionParams) (now : Nat) : Action :=
  { actionId := actionId
    service := params.service
    state := params.state
    status := .active
    metadata := params.metadata
    closedAt := none
    createdAt := now
    updatedAt := now }

/-- Modelled from the spec: `ActionService.createAction` (the manager is
not under src/): consult the Registry Gate; on failure return the
registry conflict naming the unrecognized service (message fixed by the
test suite) and persist nothing; on success persist the new active
record and return the new store with the assigned id. -/
def createAction (registry : List String) (store : List Action)
    (actionId : String) (params : ActionParams) (now : Nat) :
    Except ActionError (List Action × String) :=
  if isKnown registry params.service then
    .ok (store ++ [newAction actionId params now], actionId)
  else
    .error (.serviceNotFoundOnRegistry
      ("could not recognize service " ++ params.service ++ " on registry"))

/-- Modelled from the spec: the record produced by a successful update:
the patch's status and/or metadata applied (metadata replaced wholesale
when present), `updatedAt` refreshed to `now`, and `closedAt` set to the
same `now` exactly when the resulting status is terminal. -/
def applyPatch (a : Action) (patch : UpdatableActionParams) (now : Nat) : Action :=
  let newStatus := patch.status.getD a.status
  { a with
    status := newStatus
    metadata :=
      match patch.metadata with
      | none => a.metadata
      | some m => some m
    updatedAt := now
    closedAt := if newStatus = ActionStatus.active then a.closedAt else some now }

/-- Modelled from the spec: `ActionService.updateAction` (the manager is
not under src/): fetch the record by id (not-found error naming the id
when absent, message fixed by the test suite); reject with the
already-closed conflict naming the id and the closing status when the
transition is not allowed (i.e. the current status is not active);
otherwise persist the patched record and return the new store with it. -/
def updateAction (store : List Action) (actionId : String)
    (patch : UpdatableActionParams) (now : Nat) :
    Except ActionError (List Action × Action) :=
  match findById store actionId with
  | none => .error (.actionNotFound ("actionId " ++ actionId ++ " not found"))
  | some a =>
    if canTransition a.status (patch.status.getD a.status) then
      let patched := applyPatch a patch now
      .ok (store.map (fun b => if b.actionId == actionId then patched else b), patched)
    else
      .error (.actionAlreadyClosed
        ("action " ++ actionId ++ " has already been closed with status " ++ a.status.text))

/-- The record-level invariant: a record is active exactly when it has no
closing timestamp. -/
def statusClosedAtInv (a : Action) : Prop :=
  a.status = ActionStatus.active ↔ a.closedAt = none

/-- The store-level invariant: every persisted record satisfies
`statusClosedAtInv`. -/
def storeInv (store : List Action) : Prop :=
  ∀ a ∈ store, statusClosedAtInv a

/-- The ids of the persisted records, in insertion order. -/
def actionIds (store : List Action) : List String :=
  store.map Action.actionId

/-- Primary-key uniqueness: no two persisted records share an actionId. -/
def uniqueIds (store : List Action) : Prop :=
  (actionIds store).Nodup

/-! ## Helper lemmas -/

theorem findById_mem {store : List Action} {id : String} {a : Action}
    (h : findById store id = some a) : a ∈ store :=
  List.mem_of_find?_eq_some h

theorem findById_actionId {store : List Action} {id : String} {a : Action}
    (h : findById store id = some a) : a.actionId = id := by
  have hp := List.find?_some h
  simpa using hp

theorem findById_append {s t : List Action} {id : String}
    (h : findById s id = none) : findById (s ++ t) id = findById t id := by
  unfold findById at h ⊢
  simp [List.find?_append, h]

theorem updateAction_closed {store : List Action} {id : String} {a : Action}
    (patch : UpdatableActionParams) (now : Nat)
    (hfind : findById store id = some a)
    (hstatus : a.status ≠ ActionStatus.active) :
    updateAction store id patch now =
      Except.error (ActionError.actionAlreadyClosed
        ("action " ++ id ++ " has already been closed with status " ++ a.status.text)) := by
  unfold updateAction
  rw [hfind]
  simp [canTransition, hstatus]

theorem findById_map_update {id : String} {patched : Action}
    (hid : patched.actionId = id) :
    ∀ {store : List Action} {a : Action}, findById store id = some a →
      findById (store.map (fun b => if b.actionId == id then patched else b)) id =
        some patched := by
  intro store
  induction store with
  | nil => intro a h; simp [findById] at h
  | cons hd tl ih =>
    intro a h
    by_cases hhd : hd.actionId = id
    · simp [findById, hhd, hid]
    · unfold findById at h ⊢
      simp only [List.map_cons]
      have hfhd : (if (hd.actionId == id) = true then patched else hd) = hd := by
        simp [hhd]
      rw [hfhd, List.find?_cons_of_neg _ (by simp [hhd])]
      rw [List.find?_cons_of_neg _ (by simp [hhd])] at h
      exact ih h

/-! ## Claims -/

/-- C1: for every action whose status is not active, every update request
fails with the already-closed conflict, and the conflict message names the
action id and the status the action was closed with ("action {id} has
already been closed with status {status}"); it never succeeds, even when
the patch re-asserts the same terminal status. -/
theorem updateAction_alreadyClosed_conflict (store : List Action) (id : String)
    (patch : UpdatableActionParams) (now : Nat) (a : Action)
    (hfind : findById store id = some a)
    (hclosed : a.status ≠ ActionStatus.active) :
    updateAction store id patch now =
      Except.error (ActionError.actionAlreadyClosed
        ("action " ++ id ++ " has already been closed with status " ++ a.status.text)) :=
  updateAction_closed patch now hfind hclosed

/-- A record already closed with status completed, for concrete runs. -/
def closedCompleted : Action :=
  { actionId := "a1"
    service := "svc1"
    state := 1
    status := .completed
    metadata := none
    closedAt := some 5
    createdAt := 0
    updatedAt := 5 }

theorem updateAction_alreadyClosed_conflict_witness :
    findById [closedCompleted] "a1" = some closedCompleted ∧
    closedCompleted.status ≠ ActionStatus.active ∧
    updateAction [closedCompleted] "a1" { status := some .completed } 7 =
      Except.error (ActionError.actionAlreadyClosed
        ("action " ++ "a1" ++ " has already been closed with status " ++
          closedCompleted.status.text)) :=
  ⟨rfl, by decide,
    updateAction_alreadyClosed_conflict [closedCompleted] "a1"
      { status := some .completed } 7 closedCompleted rfl (by decide)⟩

/-- C7: a creation request whose service the registry does not recognize
fails with the registry conflict naming that service ("could not recognize
service {service} on registry"), and no record is persisted (the operation
returns no store, so the store is left as it was). -/
theorem createAction_registry_conflict (registry : List String)
    (store : List Action) (id : String) (params : ActionParams) (now : Nat)
    (hunknown : isKnown registry params.service = false) :
    createAction registry store id params now =
      Except.error (ActionError.serviceNotFoundOnRegistry
        ("could not recognize service " ++ params.service ++ " on registry")) ∧
    ∀ r, createAction registry store id params now ≠ Except.ok r := by
  unfold createAction
  simp [hunknown]

theorem createAction_registry_conflict_witness :
    isKnown ["svc1"] "badService" = false ∧
    createAction ["svc1"] [] "a1" { service := "badService", state := 1 } 0 =
      Except.error (ActionError.serviceNotFoundOnRegistry
        ("could not recognize service " ++ "badService" ++ " on registry")) :=
  ⟨by decide,
    (createAction_registry_conflict ["svc1"] [] "a1"
      { service := "badService", state := 1 } 0 (by decide)).1⟩

/-- C8: an update request whose actionId is absent from the store fails
with the not-found error naming that id ("actionId {id} not found"), and
no write occurs (the operation returns no store). -/
theorem updateAction_notFound (store : List Action) (id : String)
    (patch : UpdatableActionParams) (now : Nat)
    (habsent : findById store id = none) :
    updateAction store id patch now =
      Except.error (ActionError.actionNotFound ("actionId " ++ id ++ " not found")) ∧
    ∀ r, updateAction store id patch now ≠ Except.ok r := by
  unfold updateAction
  rw [habsent]
  simp

theorem updateAction_notFound_witness :
    findById [closedCompleted] "b2" = none ∧
    updateAction [closedCompleted] "b2" { status := some .completed } 7 =
      Except.error (ActionError.actionNotFound ("actionId " ++ "b2" ++ " not found")) :=
  ⟨rfl,
    (updateAction_notFound [closedCompleted] "b2" { status := some .completed } 7 rfl).1⟩

/-- C4: immediately after a successful creation (of a fresh id), the
stored record satisfies status == active, closedAt == null and
createdAt == updatedAt. -/
theorem createAction_postcondition (registry : List String)
    (store store' : List Action) (id aid : String) (params : ActionParams)
    (now : Nat)
    (hfresh : findById store id = none)
    (hok : createAction registry store id params now = Except.ok (store', aid)) :
    aid = id ∧ ∃ r, findById store' id = some r ∧
      r.status = ActionStatus.active ∧ r.closedAt = none ∧
      r.createdAt = r.updatedAt := by
  unfold createAction at hok
  by_cases hk : isKnown registry params.service
  · simp only [hk, if_pos, Except.ok.injEq, Prod.mk.injEq] at hok
    obtain ⟨hstore, haid⟩ := hok
    refine ⟨haid.symm, newAction id params now, ?_, rfl, rfl, rfl⟩
    rw [← hstore, findById_append hfresh]
    simp [findById, newAction]
  · simp [hk] at hok

theorem createAction_postcondition_witness :
    findById [] "a1" = none ∧
    createAction ["svc1"] [] "a1" { service := "svc1", state := 1 } 3 =
      Except.ok ([newAction "a1" { service := "svc1", state := 1 } 3], "a1") ∧
    ("a1" = "a1" ∧ ∃ r,
      findById [newAction "a1" { service := "svc1", state := 1 } 3] "a1" = some r ∧
      r.status = ActionStatus.active ∧ r.closedAt = none ∧
      r.createdAt = r.updatedAt) :=
  ⟨rfl, rfl,
    createAction_postcondition ["svc1"] []
      [newAction "a1" { service := "svc1", state := 1 } 3] "a1" "a1"
      { service := "svc1", state := 1 } 3 rfl rfl⟩

theorem updateAction_ok {store store2 : List Action} {id : String}
    {patch : UpdatableActionParams} {now : Nat} {b : Action}
    (hok : updateAction store id patch now = Except.ok (store2, b)) :
    ∃ a, findById store id = some a ∧ a.status = ActionStatus.active ∧
      b = applyPatch a patch now ∧
      store2 = store.map
        (fun c => if c.actionId == id then applyPatch a patch now else c) := by
  unfold updateAction at hok
  cases hfind : findById store id with
  | none => rw [hfind] at hok; exact absurd hok (by simp)
  | some a =>
    rw [hfind] at hok
    by_cases hact : a.status = ActionStatus.active
    · simp only [canTransition, hact, beq_self_eq_true, if_pos, Except.ok.injEq,
        Prod.mk.injEq] at hok
      exact ⟨a, rfl, hact, hok.2.symm, hok.1.symm⟩
    · simp [canTransition, hact] at hok

theorem applyPatch_inv {a : Action} (patch : UpdatableActionParams) (now : Nat)
    (hact : a.status = ActionStatus.active) (hinv : statusClosedAtInv a) :
    statusClosedAtInv (applyPatch a patch now) := by
  unfold statusClosedAtInv applyPatch at *
  by_cases hnew : patch.status.getD a.status = ActionStatus.active <;>
    simp [hnew, hinv.mp hact]

theorem mem_of_mem_findActions {store : List Action} {f : ActionFilter}
    {b : Action} (h : b ∈ findActions store f) :
    b ∈ store ∧ matchesFilter f b = true := by
  have h2 : b ∈ (store.filter (matchesFilter f)).mergeSort (updatedAtLe f.sort) := by
    unfold findActions at h
    rcases hl : f.limit with _ | n
    · rw [hl] at h
      exact h
    · rw [hl] at h
      exact List.mem_of_mem_take (l := (store.filter (matchesFilter f)).mergeSort
        (updatedAtLe f.sort)) (n := n) h
  simp only [List.mem_mergeSort, List.mem_filter] at h2
  exact h2

/-- C2: for every action and after every operation (create, update, list),
status == active holds if and only if closedAt == null: the invariant is
preserved by successful creation and update, and every listed action
satisfies it when every stored action does. -/
theorem statusClosedAt_invariant (registry : List String)
    (store store1 store2 : List Action) (id id2 aid : String)
    (params : ActionParams) (patch : UpdatableActionParams)
    (now now2 : Nat) (f : ActionFilter) (b b2 : Action)
    (hinv : storeInv store) :
    (createAction registry store id params now = Except.ok (store1, aid) →
      storeInv store1) ∧
    (updateAction store id2 patch now2 = Except.ok (store2, b2) →
      storeInv store2) ∧
    (b ∈ findActions store f → statusClosedAtInv b) := by
  refine ⟨?_, ?_, ?_⟩
  · intro hok
    unfold createAction at hok
    by_cases hk : isKnown registry params.service
    · simp only [hk, if_pos, Except.ok.injEq, Prod.mk.injEq] at hok
      intro c hc
      rw [← hok.1] at hc
      rcases List.mem_append.mp hc with hold | hnew
      · exact hinv c hold
      · simp only [List.mem_singleton] at hnew
        subst hnew
        simp [statusClosedAtInv, newAction]
    · simp [hk] at hok
  · intro hok
    obtain ⟨a, hfind, hact, _, hstore⟩ := updateAction_ok hok
    intro c hc
    rw [hstore] at hc
    obtain ⟨c0, hc0, hc0eq⟩ := List.mem_map.mp hc
    by_cases hcid : c0.actionId = id2
    · rw [if_pos (by simp [hcid])] at hc0eq
      rw [← hc0eq]
      exact applyPatch_inv patch now2 hact (hinv a (findById_mem hfind))
    · rw [if_neg (by simp [hcid])] at hc0eq
      rw [← hc0eq]
      exact hinv c0 hc0
  · intro hmem
    exact hinv b (mem_of_mem_findActions hmem).1

/-- An active record with metadata, for concrete runs. -/
def activeA1 : Action :=
  { actionId := "a1"
    service := "svc1"
    state := 1
    status := .active
    metadata := some [("k1", .str "v1"), ("k2", .str "v2")]
    closedAt := none
    createdAt := 0
    updatedAt := 2 }

theorem statusClosedAt_invariant_witness :
    storeInv [activeA1] ∧
    ((createAction ["svc1"] [activeA1] "b1" { service := "svc1", state := 2 } 3 =
        Except.ok ([activeA1, newAction "b1" { service := "svc1", state := 2 } 3], "b1") →
      storeInv [activeA1, newAction "b1" { service := "svc1", state := 2 } 3]) ∧
    (updateAction [activeA1] "a1" { status := some .completed } 4 =
        Except.ok ([applyPatch activeA1 { status := some .completed } 4],
          applyPatch activeA1 { status := some .completed } 4) →
      storeInv [applyPatch activeA1 { status := some .completed } 4]) ∧
    (activeA1 ∈ findActions [activeA1] {} → statusClosedAtInv activeA1)) :=
  ⟨by intro a ha; simp only [List.mem_singleton] at ha; subst ha;
      simp [statusClosedAtInv, activeA1],
    statusClosedAt_invariant ["svc1"] [activeA1]
      [activeA1, newAction "b1" { service := "svc1", state := 2 } 3]
      [applyPatch activeA1 { status := some .completed } 4]
      "b1" "a1" "b1" { service := "svc1", state := 2 }
      { status := some .completed } 3 4 {} activeA1
      (applyPatch activeA1 { status := some .completed } 4)
      (by intro a ha; simp only [List.mem_singleton] at ha; subst ha;
          simp [statusClosedAtInv, activeA1])⟩

/-- C9: canTransition(current, requested) is true iff current == active,
regardless of the requested status; and an update that re-asserts active
on a currently active action is not rejected: it succeeds as a
no-op-shaped update that refreshes updatedAt to now without closing the
action (status stays active, closedAt stays null). -/
theorem canTransition_iff_active (current requested : ActionStatus)
    (store : List Action) (id : String) (a : Action) (now : Nat)
    (m : Option Metadata)
    (hinv : storeInv store) (hfind : findById store id = some a)
    (hactive : a.status = ActionStatus.active) :
    (canTransition current requested = true ↔ current = ActionStatus.active) ∧
    ∃ store2 b, updateAction store id { status := some .active, metadata := m } now =
        Except.ok (store2, b) ∧
      b.status = ActionStatus.active ∧ b.updatedAt = now ∧ b.closedAt = none := by
  constructor
  · simp [canTransition]
  · refine ⟨store.map (fun c => if c.actionId == id then
        applyPatch a { status := some .active, metadata := m } now else c),
      applyPatch a { status := some .active, metadata := m } now, ?_, rfl, rfl, ?_⟩
    · unfold updateAction
      rw [hfind]
      simp [canTransition, hactive]
    · have hclosed : a.closedAt = none := (hinv a (findById_mem hfind)).mp hactive
      simp [applyPatch, hclosed]

theorem canTransition_iff_active_witness :
    storeInv [activeA1] ∧
    findById [activeA1] "a1" = some activeA1 ∧
    activeA1.status = ActionStatus.active ∧
    ((canTransition ActionStatus.completed ActionStatus.active = true ↔
        ActionStatus.completed = ActionStatus.active) ∧
      ∃ store2 b, updateAction [activeA1] "a1"
          { status := some .active, metadata := none } 6 = Except.ok (store2, b) ∧
        b.status = ActionStatus.active ∧ b.updatedAt = 6 ∧ b.closedAt = none) :=
  ⟨by intro a ha; simp only [List.mem_singleton] at ha; subst ha;
      simp [statusClosedAtInv, activeA1],
    rfl, rfl,
    canTransition_iff_active ActionStatus.completed ActionStatus.active
      [activeA1] "a1" activeA1 6 none
      (by intro a ha; simp only [List.mem_singleton] at ha; subst ha;
          simp [statusClosedAtInv, activeA1])
      rfl rfl⟩

/-- C3: after every successful update of an active action the stored
record has the patch's status when given (the old status otherwise), the
patch's metadata replacing the old mapping wholesale when given (the old
mapping untouched otherwise), updatedAt refreshed to now, and closedAt
equal to updatedAt exactly when the new status is terminal; once closedAt
is set the record can never be successfully updated again, so closedAt
never changes. -/
theorem updateAction_postcondition (store store2 : List Action) (id : String)
    (patch : UpdatableActionParams) (now : Nat) (a b : Action)
    (hinv : storeInv store)
    (hfind : findById store id = some a)
    (hok : updateAction store id patch now = Except.ok (store2, b)) :
    findById store2 id = some b ∧
    b.status = patch.status.getD a.status ∧
    (∀ m, patch.metadata = some m → b.metadata = some m) ∧
    (patch.metadata = none → b.metadata = a.metadata) ∧
    b.updatedAt = now ∧
    (b.closedAt = some b.updatedAt ↔ b.status ≠ ActionStatus.active) ∧
    (b.status ≠ ActionStatus.active →
      ∀ patch2 now2 r, updateAction store2 id patch2 now2 ≠ Except.ok r) := by
  obtain ⟨a0, hfind0, hact, hb, hstore⟩ := updateAction_ok hok
  have haa : a0 = a := by
    rw [hfind0] at hfind
    exact Option.some.inj hfind
  subst haa
  have hclosed0 : a0.closedAt = none := (hinv a0 (findById_mem hfind0)).mp hact
  have hid : (applyPatch a0 patch now).actionId = id := by
    show a0.actionId = id
    exact findById_actionId hfind0
  have h1 : findById store2 id = some b := by
    rw [hstore, ← hb]
    rw [hb]
    exact findById_map_update hid hfind0
  refine ⟨h1, ?_, ?_, ?_, ?_, ?_, ?_⟩
  · rw [hb]; rfl
  · intro m hm; rw [hb]; simp [applyPatch, hm]
  · intro hm; rw [hb]; simp [applyPatch, hm]
  · rw [hb]; rfl
  · rw [hb]
    by_cases hnew : patch.status.getD a0.status = ActionStatus.active <;>
      simp [applyPatch, hnew, hclosed0]
  · intro hterm patch2 now2 r
    rw [updateAction_closed patch2 now2 h1 hterm]
    simp

theorem updateAction_postcondition_witness :
    storeInv [activeA1] ∧
    findById [activeA1] "a1" = some activeA1 ∧
    updateAction [activeA1] "a1"
        { status := some .completed, metadata := some [("k3", JsonValue.str "v3")] } 9 =
      Except.ok
        ([applyPatch activeA1
            { status := some .completed, metadata := some [("k3", JsonValue.str "v3")] } 9],
          applyPatch activeA1
            { status := some .completed, metadata := some [("k3", JsonValue.str "v3")] } 9) ∧
    (findById [applyPatch activeA1
        { status := some .completed, metadata := some [("k3", JsonValue.str "v3")] } 9] "a1" =
      some (applyPatch activeA1
        { status := some .completed, metadata := some [("k3", JsonValue.str "v3")] } 9) ∧
    (applyPatch activeA1
        { status := some .completed, metadata := some [("k3", JsonValue.str "v3")] } 9).status =
      (some ActionStatus.completed).getD activeA1.status ∧
    (∀ m, some [("k3", JsonValue.str "v3")] = some m →
      (applyPatch activeA1
        { status := some .completed, metadata := some [("k3", JsonValue.str "v3")] } 9).metadata =
        some m) ∧
    ((some [("k3", JsonValue.str "v3")] : Option Metadata) = none →
      (applyPatch activeA1
        { status := some .completed, metadata := some [("k3", JsonValue.str "v3")] } 9).metadata =
        activeA1.metadata) ∧
    (applyPatch activeA1
        { status := some .completed, metadata := some [("k3", JsonValue.str "v3")] } 9).updatedAt = 9 ∧
    ((applyPatch activeA1
        { status := some .completed, metadata := some [("k3", JsonValue.str "v3")] } 9).closedAt =
        some (applyPatch activeA1
          { status := some .completed, metadata := some [("k3", JsonValue.str "v3")] } 9).updatedAt ↔
      (applyPatch activeA1
        { status := some .completed, metadata := some [("k3", JsonValue.str "v3")] } 9).status ≠
        ActionStatus.active) ∧
    ((applyPatch activeA1
        { status := some .completed, metadata := some [("k3", JsonValue.str "v3")] } 9).status ≠
        ActionStatus.active →
      ∀ patch2 now2 r,
        updateAction [applyPatch activeA1
          { status := some .completed, metadata := some [("k3", JsonValue.str "v3")] } 9]
          "a1" patch2 now2 ≠ Except.ok r)) :=
  ⟨by intro a ha; simp only [List.mem_singleton] at ha; subst ha;
      simp [statusClosedAtInv, activeA1],
    rfl, rfl,
    updateAction_postcondition [activeA1]
      [applyPatch activeA1
        { status := some .completed, metadata := some [("k3", JsonValue.str "v3")] } 9]
      "a1" { status := some .completed, metadata := some [("k3", JsonValue.str "v3")] } 9
      activeA1
      (applyPatch activeA1
        { status := some .completed, metadata := some [("k3", JsonValue.str "v3")] } 9)
      (by intro a ha; simp only [List.mem_singleton] at ha; subst ha;
          simp [statusClosedAtInv, activeA1])
      rfl rfl⟩

theorem updatedAtLe_trans (d : SortOrder) (a b c : Action)
    (hab : updatedAtLe d a b) (hbc : updatedAtLe d b c) : updatedAtLe d a c := by
  cases d <;> simp only [updatedAtLe, decide_eq_true_eq] at * <;> omega

theorem updatedAtLe_total (d : SortOrder) (a b : Action) :
    updatedAtLe d a b || updatedAtLe d b a := by
  cases d <;> simp only [updatedAtLe, Bool.or_eq_true, decide_eq_true_eq] <;> omega

theorem matchesFilter_sort_only (d : SortOrder) (a : Action) :
    matchesFilter { sort := d } a = true := rfl

/-- C5: listing with no filter returns all stored actions (a permutation
of the store) ordered by updatedAt per the sort direction, descending by
default (the default sort of the empty filter is desc); and listing with
limit = N returns exactly the first N entries of that ordered listing,
hence at most N results. -/
theorem findActions_order_and_limit (store : List Action) (d : SortOrder)
    (n : Nat) :
    ({} : ActionFilter).sort = SortOrder.desc ∧
    (findActions store { sort := d }).Perm store ∧
    List.Pairwise (fun a b => updatedAtLe d a b = true)
      (findActions store { sort := d }) ∧
    findActions store { sort := d, limit := some n } =
      (findActions store { sort := d }).take n ∧
    (findActions store { sort := d, limit := some n }).length ≤ n := by
  have hf : store.filter (matchesFilter { sort := d }) = store :=
    List.filter_eq_self.mpr (fun a _ => matchesFilter_sort_only d a)
  refine ⟨rfl, ?_, ?_, rfl, ?_⟩
  · show ((store.filter (matchesFilter { sort := d })).mergeSort
      (updatedAtLe d)).Perm store
    rw [hf]
    exact List.mergeSort_perm store _
  · show List.Pairwise _ ((store.filter (matchesFilter { sort := d })).mergeSort
      (updatedAtLe d))
    exact List.sorted_mergeSort (updatedAtLe_trans d) (updatedAtLe_total d) _
  · show (((store.filter (matchesFilter { sort := d, limit := some n })).mergeSort
      (updatedAtLe d)).take n).length ≤ n
    rw [List.length_take]
    exact Nat.min_le_left _ _

theorem matchesFilter_iff (f : ActionFilter) (b : Action) :
    matchesFilter f b = true ↔
      (∀ s, f.service = some s → b.service = s) ∧
      (∀ statuses, f.status = some statuses → b.status ∈ statuses) := by
  unfold matchesFilter
  rcases hs : f.service with _ | s <;> rcases ht : f.status with _ | statuses <;>
    simp [hs, ht, List.contains, List.elem_iff]

/-- C6: with no limit, a record is in the listing exactly when it is in
the store and matches every supplied filter: status filtering is set
membership, service filtering is exact string equality, and supplying
both returns the intersection (a record must match both). -/
theorem findActions_filter_exact (store : List Action) (f : ActionFilter)
    (b : Action) (hlimit : f.limit = none) :
    b ∈ findActions store f ↔
      b ∈ store ∧
      (∀ s, f.service = some s → b.service = s) ∧
      (∀ statuses, f.status = some statuses → b.status ∈ statuses) := by
  unfold findActions
  rw [hlimit]
  show b ∈ (store.filter (matchesFilter f)).mergeSort (updatedAtLe f.sort) ↔ _
  simp only [List.mem_mergeSort, List.mem_filter, matchesFilter_iff, and_assoc]

theorem findActions_filter_exact_witness :
    ({ service := some "svc1", status := some [.active, .failed] } :
      ActionFilter).limit = none ∧
    (activeA1 ∈ findActions [activeA1, closedCompleted]
        { service := some "svc1", status := some [.active, .failed] } ↔
      activeA1 ∈ [activeA1, closedCompleted] ∧
      (∀ s, ({ service := some "svc1", status := some [.active, .failed] } :
        ActionFilter).service = some s → activeA1.service = s) ∧
      (∀ statuses, ({ service := some "svc1", status := some [.active, .failed] } :
        ActionFilter).status = some statuses → activeA1.status ∈ statuses)) :=
  ⟨rfl,
    findActions_filter_exact [activeA1, closedCompleted]
      { service := some "svc1", status := some [.active, .failed] } activeA1 rfl⟩

theorem actionIds_map_update {store : List Action} {id2 : String}
    {patched : Action} (hid : patched.actionId = id2) :
    actionIds (store.map (fun b => if b.actionId == id2 then patched else b)) =
      actionIds store := by
  unfold actionIds
  rw [List.map_map]
  apply List.map_congr_left
  intro b _
  by_cases h : b.actionId = id2 <;> simp [h, hid]

/-- C10: the persisted record type mirrors the table columns: every
record totally carries actionId, service, state, status, createdAt and
updatedAt (only metadata and closedAt are nullable, being the only
Option-typed fields of Action); every status value is one of active,
completed, failed, canceled; and actionId uniqueness (the primary key) is
preserved by creation with a fresh id and by update, so no two records
ever share an actionId. -/
theorem persisted_record_shape (registry : List String)
    (store store1 store2 : List Action) (id id2 aid : String)
    (params : ActionParams) (patch : UpdatableActionParams)
    (now now2 : Nat) (b2 : Action)
    (huniq : uniqueIds store) (hfresh : id ∉ actionIds store) :
    (∀ s : ActionStatus, s = ActionStatus.active ∨ s = ActionStatus.completed ∨
      s = ActionStatus.failed ∨ s = ActionStatus.canceled) ∧
    (createAction registry store id params now = Except.ok (store1, aid) →
      uniqueIds store1) ∧
    (updateAction store id2 patch now2 = Except.ok (store2, b2) →
      uniqueIds store2) := by
  refine ⟨?_, ?_, ?_⟩
  · intro s
    cases s <;> simp
  · intro hok
    unfold createAction at hok
    by_cases hk : isKnown registry params.service
    · simp only [hk, if_pos, Except.ok.injEq, Prod.mk.injEq] at hok
      rw [← hok.1]
      unfold uniqueIds actionIds at *
      rw [List.map_append]
      simp only [List.nodup_append, List.map_cons, List.map_nil]
      exact ⟨huniq, List.nodup_singleton _, by
        intro x hx hmem
        simp only [List.mem_singleton] at hmem
        subst hmem
        exact hfresh hx⟩
    · simp [hk] at hok
  · intro hok
    obtain ⟨a, hfind, _, _, hstore⟩ := updateAction_ok hok
    have hid : (applyPatch a patch now2).actionId = id2 := by
      show a.actionId = id2
      exact findById_actionId hfind
    rw [hstore]
    unfold uniqueIds
    rw [actionIds_map_update hid]
    exact huniq

theorem persisted_record_shape_witness :
    uniqueIds [activeA1] ∧
    "b1" ∉ actionIds [activeA1] ∧
    ((∀ s : ActionStatus, s = ActionStatus.active ∨ s = ActionStatus.completed ∨
        s = ActionStatus.failed ∨ s = ActionStatus.canceled) ∧
      (createAction ["svc1"] [activeA1] "b1" { service := "svc1", state := 2 } 3 =
          Except.ok ([activeA1, newAction "b1" { service := "svc1", state := 2 } 3], "b1") →
        uniqueIds [activeA1, newAction "b1" { service := "svc1", state := 2 } 3]) ∧
      (updateAction [activeA1] "a1" { status := some .failed } 4 =
          Except.ok ([applyPatch activeA1 { status := some .failed } 4],
            applyPatch activeA1 { status := some .failed } 4) →
        uniqueIds [applyPatch activeA1 { status := some .failed } 4])) :=
  ⟨by unfold uniqueIds actionIds; decide,
    by decide,
    persisted_record_shape ["svc1"] [activeA1]
      [activeA1, newAction "b1" { service := "svc1", state := 2 } 3]
      [applyPatch activeA1 { status := some .failed } 4]
      "b1" "a1" "b1" { service := "svc1", state := 2 } { status := some .failed }
      3 4 (applyPatch activeA1 { status := some .failed } 4)
      (by unfold uniqueIds actionIds; decide)
      (by decide)⟩

end Actiony
